import Mathlib

/-!
Shallow embedding of `attendance_sync.py` (spond-sync).

The reconciliation engine of the repository is embedded as executable Lean
definitions: Python strings become `String`, Python dicts become insertion
ordered association lists (`List (key × value)` with first-match lookup and
in-place update, matching CPython dict semantics), and the network fetches of
the script become explicit inputs to the model.  Names follow the source
where Lean allows it.

Modelling conventions for Python primitives:
- `str.strip()`  → `pyStrip` (drops leading/trailing whitespace; Lean's
  `Char.isWhitespace` covers space, tab, CR, LF — the characters that occur in
  the data handled by the script).
- `str.lower()`  → `pyLower`, ASCII case folding plus the three Norwegian
  uppercase letters (Å, Æ, Ø) that occur in the script's vocabularies.
- `tok in s`     → `strIn tok s` (substring containment).
- `re.sub(r"\s+", " ", s)` → `collapseWs` (each maximal whitespace run becomes
  a single space).
-/

namespace SpondSync

/-- Python `str.lower` on one character: ASCII `A`–`Z` plus the Norwegian
uppercase letters used in the source's vocabularies. -/
def pyLowerChar (c : Char) : Char :=
  if c = 'Å' then 'å'
  else if c = 'Æ' then 'æ'
  else if c = 'Ø' then 'ø'
  else Char.toLower c

/-- Python `str.lower`. -/
def pyLower (s : String) : String := ⟨s.data.map pyLowerChar⟩

/-- List-level model of Python `str.strip`. -/
def pyStripL (l : List Char) : List Char :=
  ((l.dropWhile Char.isWhitespace).reverse.dropWhile Char.isWhitespace).reverse

/-- Python `str.strip`. -/
def pyStrip (s : String) : String := ⟨pyStripL s.data⟩

/-- Python `s.strip().lower()`, a combination the source uses repeatedly. -/
def strip_lower (s : String) : String := pyLower (pyStrip s)

/-- Check that `n` occurs at the head of `l` (helper for substring search). -/
def listStarts : List Char → List Char → Bool
  | [], _ => true
  | _ :: _, [] => false
  | a :: as, b :: bs => a == b && listStarts as bs

/-- Check that `n` occurs contiguously somewhere inside `l`. -/
def listIsSub (n : List Char) : List Char → Bool
  | [] => listStarts n []
  | b :: bs => listStarts n (b :: bs) || listIsSub n bs

/-- Python `needle in hay` on strings (substring containment). -/
def strIn (needle hay : String) : Bool := listIsSub needle.data hay.data

/-- Check `any(t in s for t in toks)`, the pattern used by `normalize_status`
and the role filter. -/
def matchesAny (toks : List String) (s : String) : Bool :=
  toks.any (fun t => strIn t s)

/-- A raw status value reaching `normalize_status`: Python `None`, a boolean,
or a string (the script feeds it nothing else). -/
inductive RawVal where
  | noneV : RawVal
  | boolV : Bool → RawVal
  | strV : String → RawVal
deriving DecidableEq

/-- Python `str(raw)` for the values of `RawVal` other than `None`
(`normalize_status` returns before calling `str` on `None`). -/
def pyStr : RawVal → String
  | RawVal.noneV => "None"
  | RawVal.boolV true => "True"
  | RawVal.boolV false => "False"
  | RawVal.strV s => s

/-- Vocabulary `tokens_yes` of `normalize_status` (source lines 238). -/
def tokens_yes : List String :=
  ["yes", "accepted", "attending", "present", "going", "kommer", "deltar",
   "påmeldt", "ja", "møter", "checked_in", "checkedin", "checked-in"]

/-- Vocabulary `tokens_no` of `normalize_status` (source line 239); note the
trailing space in `"no "`. -/
def tokens_no : List String :=
  ["no ", "declin", "absent", "kommer ikke", "deltar ikke", "nei", "fravær",
   "kan ikke", "not going", "rejected"]

/-- Vocabulary `tokens_nr` of `normalize_status` (source line 240). -/
def tokens_nr : List String :=
  ["no response", "unknown", "maybe", "usikker", "kanskje", "ubesvart",
   "ingen svar", "pending", "not responded", "har ikke svart"]

/-- Embedding of `normalize_status` (source lines 234–246): `None` maps to
`"No response"`, otherwise the stripped lowercased text is matched against the
yes/no/no-response vocabularies in that order, with `"No response"` as the
default for everything else. -/
def normalize_status (raw : RawVal) : String :=
  match raw with
  | RawVal.noneV => "No response"
  | v =>
    let s := strip_lower (pyStr v)
    if matchesAny tokens_yes s then "Present"
    else if matchesAny tokens_no s then "Absent"
    else if matchesAny tokens_nr s then "No response"
    else if s = "" ∨ s = "-" ∨ s = "—" ∨ s = "nan" then "No response"
    else "No response"

/-- Embedding of `status_to_cell` (source lines 285–292): renormalizes the
status text and produces the `(cell text, color code)` pair; an `Absent` cell
carries `" — <reason>"` when the stripped reason is non-empty. -/
def status_to_cell (status reason : String) : String × String :=
  let st := normalize_status (RawVal.strV status)
  if st = "Present" then ("Present", "present")
  else if st = "Absent" then
    ("Absent" ++ (if pyStrip reason = "" then "" else " — " ++ pyStrip reason),
     "absent")
  else ("No response", "noresp")

/-- Model of `re.sub(r"\s+", " ", ·)` on a character list: every maximal run
of whitespace is replaced by a single space. -/
def collapseWs : List Char → List Char
  | [] => []
  | [c] => [if c.isWhitespace then ' ' else c]
  | a :: b :: r =>
    if a.isWhitespace && b.isWhitespace then collapseWs (b :: r)
    else (if a.isWhitespace then ' ' else a) :: collapseWs (b :: r)

/-- Embedding of `normalize_name` (source lines 74–75):
`re.sub(r"\s+", " ", name.strip().lower())`. -/
def normalize_name (name : String) : String :=
  ⟨collapseWs ((pyStripL name.data).map pyLowerChar)⟩

/-! ### Insertion-ordered association lists (CPython dict semantics) -/

/-- Dict lookup: first entry with the given key (entries built by `updateA`
and `setdefaultA` have pairwise distinct keys, as in a Python dict). -/
def lookupA {β : Type} : List (String × β) → String → Option β
  | [], _ => Option.none
  | (k', v) :: t, k => if k' = k then Option.some v else lookupA t k

/-- Dict assignment `d[k] = v`: overwrite in place if present, else append. -/
def updateA {β : Type} : List (String × β) → String → β → List (String × β)
  | [], k, v => [(k, v)]
  | (k', v') :: t, k, v =>
    if k' = k then (k, v) :: t else (k', v') :: updateA t k v

/-- Dict `d.setdefault(k, v)`: insert at the end only when absent. -/
def setdefaultA {β : Type} (l : List (String × β)) (k : String) (v : β) :
    List (String × β) :=
  match lookupA l k with
  | Option.some _ => l
  | Option.none => l ++ [(k, v)]

/-! ### JSON attendee extraction -/

/-- A participant-like object in the event detail document, holding exactly
the dict keys `extract_from_json` reads.  `ptype` stands for the `"type"`
key; `isAttending`/`declined` hold `str(p.get(..., ""))`. -/
structure Participant where
  name : Option String := Option.none
  fullName : Option String := Option.none
  memberName : Option String := Option.none
  title : Option String := Option.none
  displayName : Option String := Option.none
  role : Option String := Option.none
  ptype : Option String := Option.none
  kategori : Option String := Option.none
  category : Option String := Option.none
  memberType : Option String := Option.none
  status : Option String := Option.none
  response : Option String := Option.none
  rsvpStatus : Option String := Option.none
  attendanceStatus : Option String := Option.none
  isAttending : String := ""
  declined : String := ""

/-- Embedding of `_pick` (source lines 54–58): the first candidate key whose
value is present (not `None`). -/
def pickFirst : List (Option String) → Option String
  | [] => Option.none
  | Option.some v :: _ => Option.some v
  | Option.none :: t => pickFirst t

/-- The name `extract_from_json` reads from a participant:
`str(_pick(p, "name", "fullName", "memberName", "title", "displayName") or "").strip()`. -/
def participantName (p : Participant) : String :=
  pyStrip ((pickFirst [p.name, p.fullName, p.memberName, p.title, p.displayName]).getD "")

/-- The role text `extract_from_json` reads:
`str(_pick(p, "role", "type", "kategori", "category", "memberType") or "").strip().lower()`. -/
def participantRole (p : Participant) : String :=
  strip_lower ((pickFirst [p.role, p.ptype, p.kategori, p.category, p.memberType]).getD "")

/-- The raw status `extract_from_json` feeds to `normalize_status`: the first
status-like field, else the boolean `isAttending`/`declined` fallback
(source lines 273–278). -/
def participantStatus (p : Participant) : String :=
  match pickFirst [p.status, p.response, p.rsvpStatus, p.attendanceStatus] with
  | Option.some st => st
  | Option.none =>
    if pyLower p.isAttending = "true" ∨ pyLower p.isAttending = "1" then "attending"
    else if pyLower p.declined = "true" ∨ pyLower p.declined = "1" then "declined"
    else ""

/-- The `(display name, canonical status, role)` triple stored in
`by_name[nkey]` for a participant. -/
def participantEntry (p : Participant) : String × String × String :=
  (participantName p, normalize_status (RawVal.strV (participantStatus p)),
   participantRole p)

/-- An event detail document, reduced to the five arrays `extract_from_json`
iterates; `Option.none` models a missing key or a non-list value. -/
structure JsonEvent where
  participants : Option (List Participant) := Option.none
  members : Option (List Participant) := Option.none
  invites : Option (List Participant) := Option.none
  responses : Option (List Participant) := Option.none
  attendances : Option (List Participant) := Option.none

/-- The concatenation of the present arrays, in the fixed key order the
source iterates them. -/
def jsonArrays (d : JsonEvent) : List Participant :=
  d.participants.getD [] ++ d.members.getD [] ++ d.invites.getD [] ++
    d.responses.getD [] ++ d.attendances.getD []

/-- One loop iteration of `extract_from_json` over the state
`(by_name, roles)` (source lines 262–280). -/
def extractStep
    (st : List (String × (String × String × String)) × List (String × String))
    (p : Participant) :
    List (String × (String × String × String)) × List (String × String) :=
  let name := participantName p
  if name = "" then st
  else
    let nkey := normalize_name name
    let role := participantRole p
    let roles := if role = "" then st.2 else setdefaultA st.2 nkey role
    (updateA st.1 nkey (participantEntry p), roles)

/-- Embedding of `extract_from_json` (source lines 248–282): returns
`(statuses_by_name, roles_by_name)`. -/
def extract_from_json (d : JsonEvent) :
    List (String × (String × String × String)) × List (String × String) :=
  (jsonArrays d).foldl extractStep ([], [])

/-! ### Role filter and group resolution -/

/-- Embedding of `ROLE_INCLUDE_WORDS` (source lines 102–104). -/
def ROLE_INCLUDE_WORDS : List String :=
  ["player", "spiller", "deltaker", "member", "utøver", "athlete", "keeper",
   "målvakt"]

/-- Embedding of `ROLE_EXCLUDE_WORDS` (source lines 105–109). -/
def ROLE_EXCLUDE_WORDS : List String :=
  ["leader", "leder", "coach", "trener", "admin", "administrator",
   "lagleder", "oppmann", "team leader", "staff", "tutor", "guardian",
   "parent", "foresatt", "forelder"]

/-- Embedding of the nested `is_player_role` (source lines 413–418): exclude
words win, then include words, and an unknown role defaults to `true`. -/
def is_player_role (role_text : String) : Bool :=
  let t := pyLower role_text
  if matchesAny ROLE_EXCLUDE_WORDS t then false
  else if matchesAny ROLE_INCLUDE_WORDS t then true
  else true

/-- Embedding of the configured `GROUP_NAME` (source line 17). -/
def GROUP_NAME : String := "IHKS G2008b/G2009b"

/-- A group entry from `sp.get_groups()`, reduced to the keys
`resolve_group_id` reads. -/
structure GroupEntry where
  name : Option String := Option.none
  title : Option String := Option.none
  groupName : Option String := Option.none
  id : Option String := Option.none
  groupId : Option String := Option.none
  uid : Option String := Option.none

/-- Embedding of `resolve_group_id` (source lines 295–309): scan all groups,
assigning `gid` on every case-insensitive name match (so the last match
wins), and return the final value, which may be `None`. -/
def resolve_group_id (groups : List GroupEntry) : Option String :=
  groups.foldl
    (fun gid g =>
      if strip_lower ((pickFirst [g.name, g.title, g.groupName]).getD "") =
          strip_lower GROUP_NAME
      then pickFirst [g.id, g.groupId, g.uid]
      else gid)
    Option.none

/-- Python truthiness of the optional group id (`if not gid` in the source:
both `None` and the empty string are falsy). -/
def truthyStr : Option String → Bool
  | Option.none => false
  | Option.some s => s ≠ ""

/-! ### Per-event processing (source lines 389–447) -/

/-- One row of the parsed attendance export
(columns `Member | Raw Status | Raw Reason` of `read_attendance_xlsx`). -/
structure TableRow where
  member : String
  rawStatus : String
  rawReason : String

/-- One in-scope event, after the Event Selector and the network fetches:
the computed column header, the detail document (`Option.none` when
`get_event` raised), the parsed export rows (empty when the export was
unavailable), and the export's `roles_by_name` map. -/
structure EventInput where
  header : String
  json : Option JsonEvent := Option.none
  table : List TableRow := []
  xroles : List (String × String) := []

/-- Nested per-member map: display name → (event header → cell). -/
abbrev PerMember := List (String × List (String × (String × String)))

/-- Dict write `per_member.setdefault(disp, {})[header] = cell`. -/
def updatePM (pm : PerMember) (disp header : String) (cell : String × String) :
    PerMember :=
  match lookupA pm disp with
  | Option.some inner => updateA pm disp (updateA inner header cell)
  | Option.none => pm ++ [(disp, [(header, cell)])]

/-- Nested lookup `per_member.get(disp, {}).get(header, …)` without the
default. -/
def lookup2 (pm : PerMember) (disp header : String) : Option (String × String) :=
  lookupA ((lookupA pm disp).getD []) header

/-- The mutable state threaded through `collect_events_and_attendance`:
`per_member` and `global_role_flags`. -/
structure CollectState where
  per_member : PerMember
  flags : List (String × Bool)

/-- One iteration of the JSON loop (source lines 424–428): write the cell,
record the name as used, and set the role flag only if absent. -/
def processJsonItem (header : String)
    (st : CollectState × List String)
    (item : String × (String × String × String)) : CollectState × List String :=
  let nkey := item.1
  let disp := item.2.1
  let stt := item.2.2.1
  let role := item.2.2.2
  (⟨updatePM st.1.per_member disp header (status_to_cell stt ""),
    setdefaultA st.1.flags nkey (is_player_role role)⟩,
   st.2 ++ [normalize_name disp])

/-- One iteration of the export loop (source lines 431–447): capture a role
flag for unseen names, then skip names already covered by the JSON pass,
else write the cell computed from the raw export status/reason. -/
def processTableRow (header : String) (xroles : List (String × String))
    (st : CollectState × List String) (row : TableRow) :
    CollectState × List String :=
  let name := pyStrip row.member
  if name = "" then st
  else
    let nkey := normalize_name name
    let flags :=
      match lookupA st.1.flags nkey with
      | Option.some _ => st.1.flags
      | Option.none => st.1.flags ++ [(nkey, is_player_role ((lookupA xroles nkey).getD ""))]
    if st.2.contains nkey then (⟨st.1.per_member, flags⟩, st.2)
    else
      (⟨updatePM st.1.per_member name header
          (status_to_cell (pyStrip row.rawStatus) (pyStrip row.rawReason)),
        flags⟩, st.2)

/-- Processing of one included event (source lines 389–447): the JSON pass
with a fresh `used_names` set, then the export pass. -/
def processEvent (st : CollectState) (e : EventInput) : CollectState :=
  let json_map := match e.json with
    | Option.some d => (extract_from_json d).1
    | Option.none => []
  let st1 := json_map.foldl (processJsonItem e.header) (st, ([] : List String))
  (e.table.foldl (processTableRow e.header e.xroles) st1).1

/-- The relevance decision for one display name (source lines 451–459): the
stored role flag (default `true`), overridden to `false` whenever the
lowercased display name contains an exclusion word. -/
def relevantFor (flags : List (String × Bool)) (disp : String) : Bool :=
  let base := (lookupA flags (normalize_name disp)).getD true
  if matchesAny ROLE_EXCLUDE_WORDS (pyLower disp) then false else base

/-- The `relevant_map` the source builds over the pre-prune member keys. -/
def relevant_map (flags : List (String × Bool)) (pm : PerMember) :
    List (String × Bool) :=
  pm.map (fun e => (e.1, relevantFor flags e.1))

/-- The prune step (source lines 462–464): drop members whose relevance is
`false`, keeping the others in order. -/
def pruneMembers (flags : List (String × Bool)) (pm : PerMember) : PerMember :=
  pm.filter (fun e => relevantFor flags e.1)

/-- Inputs of one run, as fetched by the script: the group listing and the
in-scope events in their final (sorted) order.  The Event Selector gates
(keyword and date matching, source lines 331–384) are outside every claim
and are represented by the `events` list they produce. -/
structure CollectInput where
  groups : List GroupEntry
  events : List EventInput

/-- Result of `collect_events_and_attendance` (the debug rows, which are
presentation only, are omitted). -/
structure CollectResult where
  headers : List String
  per_member : PerMember
  relevance : List (String × Bool)

/-- Embedding of `collect_events_and_attendance` (source lines 315–466): an
unresolved (falsy) group id short-circuits to empty results; otherwise each
included event is processed in order and the member list is pruned to
players. -/
def collect_events_and_attendance (inp : CollectInput) : CollectResult :=
  if truthyStr (resolve_group_id inp.groups) = false then ⟨[], [], []⟩
  else
    let st := inp.events.foldl processEvent ⟨[], []⟩
    ⟨inp.events.map (fun e => e.header),
     pruneMembers st.flags st.per_member,
     relevant_map st.flags st.per_member⟩

/-! ### Matrix build and sheet write (source lines 476–508, 572–583) -/

/-- Embedding of `FIXED_COLS` (source line 26). -/
def FIXED_COLS : List String :=
  ["Player", "Total Present", "Total Missed", "Total Unanswered"]

/-- Cell resolution `per_member.get(m, {}).get(eh, ("No response", "noresp"))`
(source line 488). -/
def cellFor (pm : PerMember) (m eh : String) : String × String :=
  (lookup2 pm m eh).getD ("No response", "noresp")

/-- One member's `(row_vals, row_cols)` pair of `build_matrix`: the counters
filled into the placeholder columns are expressed by direct construction. -/
def buildRow (ehs : List String) (pm : PerMember) (m : String) :
    List String × List String :=
  let cells := ehs.map (cellFor pm m)
  let present := (cells.filter (fun c => c.2 = "present")).length
  let absent := (cells.filter (fun c => c.2 = "absent")).length
  let noresp := (cells.filter (fun c => c.2 ≠ "present" ∧ c.2 ≠ "absent")).length
  ([m, toString present, toString (absent + noresp), toString noresp] ++
     cells.map (fun c => c.1),
   cells.map (fun c => c.2))

/-- Member ordering `sorted(per_member.keys(), key=lambda s: s.lower())`. -/
def sortedMembers (pm : PerMember) : List String :=
  List.insertionSort (fun a b => pyLower a ≤ pyLower b)
    (pm.map (fun e => e.1))

/-- Embedding of `build_matrix` (source lines 476–503). -/
def build_matrix (ehs : List String) (pm : PerMember) :
    List (List String) × List (List String) :=
  ((sortedMembers pm).map (fun m => (buildRow ehs pm m).1),
   (sortedMembers pm).map (fun m => (buildRow ehs pm m).2))

/-- The destination worksheet, as its grid of cell values. -/
abbrev Sheet := List (List String)

/-- Effect of `ws.clear()` on the worksheet contents. -/
def ws_clear (_s : Sheet) : Sheet := []

/-- Effect of `ws.update(data)` on a worksheet: values are written starting
at A1, so on a cleared sheet the contents become exactly `data`. -/
def ws_update (_s : Sheet) (data : Sheet) : Sheet := data

/-- Embedding of the write path of `write_wide_sheet` (source lines 505–508):
clear, then update with the fixed header row followed by the data rows (the
freeze and background-color requests do not change cell values). -/
def write_wide_sheet (s : Sheet) (ehs : List String) (values : Sheet) : Sheet :=
  ws_update (ws_clear s) ((FIXED_COLS ++ ehs) :: values)

/-- Embedding of the data flow of `main` (source lines 572–583) on the
attendance worksheet, starting from its previous contents `prev`. -/
def mainModel (prev : Sheet) (inp : CollectInput) : Sheet :=
  let r := collect_events_and_attendance inp
  write_wide_sheet prev r.headers (build_matrix r.headers r.per_member).1

/-- Reading one cell of the wide sheet at key `(event header, member)`:
locate the event column in the header row and the row whose first cell is
the member. -/
def sheetCell (sheet : Sheet) (eh member : String) : Option String :=
  match sheet with
  | [] => Option.none
  | header :: rows =>
    match header.indexOf eh, rows.find? (fun r => r.head? = Option.some member) with
    | ci, Option.some row => row.get? ci
    | _, Option.none => Option.none

/-! ### Derived notions used by the claim statements -/

/-- The condition under which a participant object contributes an entry for
key `k`: its stripped name is non-empty and normalizes to `k`. -/
def matchesKey (p : Participant) (k : String) : Bool :=
  (participantName p != "") && (normalize_name (participantName p) == k)

/-- The last participant in iteration order contributing an entry for key
`k`. -/
def lastMatch (k : String) : List Participant → Option Participant
  | [] => Option.none
  | p :: ps =>
    match lastMatch k ps with
    | Option.some q => Option.some q
    | Option.none => if matchesKey p k then Option.some p else Option.none

/-! ### Canonicity predicates for whitespace-collapsed text -/

/-- Predicate: every whitespace character in the list is a plain space and is
not followed by another whitespace character (the shape `collapseWs`
produces). -/
def wsCanon : List Char → Bool
  | [] => true
  | [c] => !c.isWhitespace || c == ' '
  | a :: b :: r =>
    (!a.isWhitespace || (a == ' ' && !b.isWhitespace)) && wsCanon (b :: r)

/-- Predicate: the head of the list, if any, is not whitespace. -/
def headNonWs (l : List Char) : Prop :=
  ∀ c, l.head? = Option.some c → c.isWhitespace = false

/-- Predicate: the last element of the list, if any, is not whitespace. -/
def lastNonWs (l : List Char) : Prop :=
  ∀ c, l.getLast? = Option.some c → c.isWhitespace = false

/-! ### Concrete run inputs used in counterexamples and witnesses -/

/-- A group listing containing the configured group. -/
def groupsHit : List GroupEntry :=
  [{ name := Option.some "IHKS G2008b/G2009b", id := Option.some "g1" }]

/-- A group listing whose only entry is another team. -/
def groupsMiss : List GroupEntry :=
  [{ name := Option.some "Another Team", id := Option.some "g9" }]

/-- Participant Bob answering Present. -/
def bobPresent : Participant :=
  { name := Option.some "Bob", status := Option.some "Present" }

/-- Participant Bob with a pending status (normalizes to No response). -/
def bobPending : Participant :=
  { name := Option.some "Bob", status := Option.some "pending" }

/-- Participant Bob accepting, with a coach role recorded. -/
def bobCoachYes : Participant :=
  { name := Option.some "Bob", status := Option.some "yes",
    role := Option.some "trener" }

/-- Event E1 whose structured payload reports Bob as Present. -/
def evBobPresent : EventInput :=
  { header := "E1", json := Option.some { participants := Option.some [bobPresent] } }

/-- Event E1 where the payload says Bob has not responded while the export
says Present. -/
def evJsonVsXlsx : EventInput :=
  { header := "E1", json := Option.some { participants := Option.some [bobPending] },
    table := [⟨"Bob", "Present", ""⟩] }

/-- Event E1 where the payload says Bob accepted while the export says he
declined. -/
def evJsonYesXlsxNo : EventInput :=
  { header := "E1",
    json := Option.some { participants := Option.some [bobPresent] },
    table := [⟨"Bob", "declined", "sick"⟩] }

/-- Event E2 whose payload records a coach role for Bob. -/
def evBobCoach : EventInput :=
  { header := "E2", json := Option.some { participants := Option.some [bobCoachYes] } }

/-- Event E1 where the export's role column marks Kari Leder as a player. -/
def evKari : EventInput :=
  { header := "E1", table := [⟨"Kari Leder", "yes", ""⟩],
    xroles := [("kari leder", "player")] }

/-- Run input whose payload computes (E1, Bob) ↦ Present. -/
def inputBob : CollectInput := { groups := groupsHit, events := [evBobPresent] }

/-- Run input whose group listing has no match for the configured group. -/
def inputMiss : CollectInput := { groups := groupsMiss, events := [evBobPresent] }

/-- The previously persisted attendance sheet, holding the manual override
`"Absent — injured"` at key (E1, Bob). -/
def prevSheet : Sheet :=
  [["Player", "Total Present", "Total Missed", "Total Unanswered", "E1"],
   ["Bob", "0", "1", "0", "Absent — injured"]]

-- Sanity checks against the source's behavior.
example : normalize_status (RawVal.strV "Accepted") = "Present" := by decide
example : normalize_status (RawVal.strV "declined") = "Absent" := by decide
example : normalize_status (RawVal.strV "  ") = "No response" := by decide
example : normalize_status (RawVal.strV "not going") = "Present" := by decide
example : normalize_status (RawVal.strV "no") = "No response" := by decide
example : normalize_status (RawVal.strV "No response") = "Absent" := by decide
example : status_to_cell "declined" " hurt " = ("Absent — hurt", "absent") := by decide
example : normalize_name "  Alice   SMITH " = "alice smith" := by decide

/-! ## Association-list lemmas -/

theorem lookupA_updateA_self {β : Type} (l : List (String × β)) (k : String) (v : β) :
    lookupA (updateA l k v) k = Option.some v := by
  induction l with
  | nil => simp [updateA, lookupA]
  | cons e t ih =>
    obtain ⟨a, b⟩ := e
    by_cases h : a = k
    · simp [updateA, h, lookupA]
    · simp [updateA, h, lookupA, ih]

theorem lookupA_updateA_ne {β : Type} (l : List (String × β)) (k k' : String) (v : β)
    (h : k ≠ k') : lookupA (updateA l k v) k' = lookupA l k' := by
  induction l with
  | nil => simp [updateA, lookupA, h]
  | cons e t ih =>
    obtain ⟨a, b⟩ := e
    by_cases ha : a = k
    · subst ha
      simp [updateA, lookupA, h]
    · simp [updateA, ha, lookupA, ih]

theorem lookupA_append {β : Type} (l l' : List (String × β)) (k : String) :
    lookupA (l ++ l') k =
      match lookupA l k with
      | Option.some v => Option.some v
      | Option.none => lookupA l' k := by
  induction l with
  | nil => simp [lookupA]
  | cons e t ih =>
    obtain ⟨a, b⟩ := e
    by_cases h : a = k
    · simp [lookupA, h]
    · simp [lookupA, h, ih]

theorem lookupA_append_of_some {β : Type} {l : List (String × β)} {k : String} {v : β}
    (l' : List (String × β)) (h : lookupA l k = Option.some v) :
    lookupA (l ++ l') k = Option.some v := by
  rw [lookupA_append, h]

theorem lookupA_setdefaultA_of_some {β : Type} {l : List (String × β)} {k : String} {b : β}
    (k' : String) (v : β) (h : lookupA l k = Option.some b) :
    lookupA (setdefaultA l k' v) k = Option.some b := by
  unfold setdefaultA
  cases lookupA l k' with
  | some _ => exact h
  | none => exact lookupA_append_of_some _ h

theorem lookupA_mem {β : Type} {l : List (String × β)} {k : String} {v : β}
    (h : lookupA l k = Option.some v) : (k, v) ∈ l := by
  induction l with
  | nil => simp [lookupA] at h
  | cons e t ih =>
    obtain ⟨a, b⟩ := e
    by_cases ha : a = k
    · subst ha
      simp [lookupA] at h
      simp [h]
    · simp [lookupA, ha] at h
      exact List.mem_cons_of_mem _ (ih h)

/-! ## Claim C10: last occurrence wins in `extract_from_json` -/

theorem extract_foldl_lookup (k : String) :
    ∀ (ps : List Participant)
      (st : List (String × (String × String × String)) × List (String × String)),
      lookupA (ps.foldl extractStep st).1 k =
        match lastMatch k ps with
        | Option.some p => Option.some (participantEntry p)
        | Option.none => lookupA st.1 k := by
  intro ps
  induction ps with
  | nil => intro st; rfl
  | cons p ps ih =>
    intro st
    show lookupA (ps.foldl extractStep (extractStep st p)).1 k = _
    rw [ih]
    cases hlm : lastMatch k ps with
    | some q => simp [lastMatch, hlm]
    | none =>
      simp only [lastMatch, hlm]
      unfold extractStep matchesKey
      by_cases hn : participantName p = ""
      · simp [hn]
      · simp only [hn, if_neg]
        by_cases hk : normalize_name (participantName p) = k
        · simp [hn, hk, lookupA_updateA_self, participantEntry]
        · simp [hn, hk, lookupA_updateA_ne _ _ _ _ hk]

/-- Claim C10: when the same normalized name occurs several times across the
arrays `participants`, `members`, `invites`, `responses`, `attendances` of an
event detail document, the `statuses_by_name` entry returned by
`extract_from_json` — display name, canonical status, and role — is exactly
the one produced by the last occurrence in iteration order, and earlier
occurrences are discarded (a key with no occurrence has no entry). -/
theorem C10_theorem (d : JsonEvent) (k : String) :
    lookupA (extract_from_json d).1 k =
      Option.map participantEntry (lastMatch k (jsonArrays d)) := by
  unfold extract_from_json
  rw [extract_foldl_lookup]
  cases lastMatch k (jsonArrays d) <;> rfl

/-! ## Claim C4: normalization of negative answers -/

/-- Claim C4, counterexample: the raw status token `"not going"` — one of the
very tokens the claim lists as mapping to Absent — is normalized to
`"Present"`, because the Present vocabulary is matched first and `"going"` is
a substring of `"not going"`; and the bare token `"no"` is normalized to
`"No response"`, because the Absent vocabulary only contains `"no "` with a
trailing space. -/
theorem C4_counterexample :
    normalize_status (RawVal.strV "not going") = "Present" ∧
    normalize_status (RawVal.strV "not going") ≠ "Absent" ∧
    normalize_status (RawVal.strV "no") = "No response" ∧
    normalize_status (RawVal.strV "no") ≠ "Absent" := by
  refine ⟨rfl, by decide, rfl, by decide⟩

/-- Claim C4 as amended: a raw status token whose stripped lowercased text
contains one of the code's Absent vocabulary entries (`"no "` with trailing
space, `"declin"`, `"absent"`, `"kommer ikke"`, `"deltar ikke"`, `"nei"`,
`"fravær"`, `"kan ikke"`, `"not going"`, `"rejected"`) and contains no entry
of the Present vocabulary is normalized to Absent, and the cell built from it
carries the supplied reason as `"Absent — <reason>"` when the stripped reason
is non-empty. -/
theorem C4_theorem (s r : String)
    (hno : matchesAny tokens_no (strip_lower s) = true)
    (hyes : matchesAny tokens_yes (strip_lower s) = false) :
    normalize_status (RawVal.strV s) = "Absent" ∧
    (pyStrip r ≠ "" →
      status_to_cell s r = ("Absent" ++ " — " ++ pyStrip r, "absent")) := by
  have habs : normalize_status (RawVal.strV s) = "Absent" := by
    unfold normalize_status
    simp [pyStr, hno, hyes]
  refine ⟨habs, fun hr => ?_⟩
  unfold status_to_cell
  rw [habs]
  rw [if_neg (by decide : ¬ ("Absent" : String) = "Present"), if_pos rfl, if_neg hr,
    ← String.append_assoc]

/-- Claim C4, witness: the token `"declined"` with reason `" sick "`. -/
theorem C4_witness :
    normalize_status (RawVal.strV "declined") = "Absent" ∧
    status_to_cell "declined" " sick " = ("Absent" ++ " — " ++ "sick", "absent") := by
  have h := C4_theorem "declined" " sick " (by decide) (by decide)
  exact ⟨h.1, h.2 (by decide)⟩

/-! ## Claim C5: default-to-NoResponse totality of the normalizer -/

/-- Claim C5: `normalize_status` is a total function of any raw value
(string, boolean, or `None`) — in this embedding totality is by construction,
matching the source, which only converts the value to text and tests
substring membership — and every value whose text matches none of the three
vocabularies, the empty string included, is mapped to `"No response"`, never
to Present or Absent. -/
theorem C5_theorem (v : RawVal)
    (hyes : matchesAny tokens_yes (strip_lower (pyStr v)) = false)
    (hno : matchesAny tokens_no (strip_lower (pyStr v)) = false)
    (hnr : matchesAny tokens_nr (strip_lower (pyStr v)) = false) :
    normalize_status v = "No response" := by
  cases v with
  | noneV => rfl
  | boolV b =>
    unfold normalize_status
    simp only [hyes, hno, hnr, if_false, Bool.false_eq_true]
    split <;> rfl
  | strV s =>
    unfold normalize_status
    simp only [hyes, hno, hnr, if_false, Bool.false_eq_true]
    split <;> rfl

/-- Claim C5, witness: the empty string, a boolean, and an unrecognized token
all normalize to `"No response"`. -/
theorem C5_witness :
    normalize_status (RawVal.strV "") = "No response" ∧
    normalize_status (RawVal.boolV true) = "No response" ∧
    normalize_status (RawVal.strV "xyzzy?") = "No response" := by
  refine ⟨C5_theorem (RawVal.strV "") (by decide) (by decide) (by decide),
    C5_theorem (RawVal.boolV true) (by decide) (by decide) (by decide),
    C5_theorem (RawVal.strV "xyzzy?") (by decide) (by decide) (by decide)⟩

/-! ## Claim C9: first-assignment stickiness of the player flag -/

theorem flags_json_fold (h : String)
    (items : List (String × (String × String × String))) :
    ∀ (stu : CollectState × List String) (k : String) (b : Bool),
      lookupA stu.1.flags k = Option.some b →
      lookupA ((items.foldl (processJsonItem h) stu).1).flags k = Option.some b := by
  induction items with
  | nil => intro stu k b hk; exact hk
  | cons it items ih =>
    intro stu k b hk
    exact ih _ k b (lookupA_setdefaultA_of_some _ _ hk)

theorem flags_table_fold (h : String) (xr : List (String × String))
    (rows : List TableRow) :
    ∀ (stu : CollectState × List String) (k : String) (b : Bool),
      lookupA stu.1.flags k = Option.some b →
      lookupA ((rows.foldl (processTableRow h xr) stu).1).flags k = Option.some b := by
  induction rows with
  | nil => intro stu k b hk; exact hk
  | cons row rows ih =>
    intro stu k b hk
    apply ih
    unfold processTableRow
    by_cases hn : pyStrip row.member = ""
    · simp only [hn, if_pos rfl]
      exact hk
    · simp only [hn, if_neg, if_false]
      cases hl : lookupA stu.1.flags (normalize_name (pyStrip row.member)) with
      | some fl =>
        split <;> simpa [hl] using hk
      | none =>
        split <;> simpa [hl] using lookupA_append_of_some _ hk

/-- Claim C9: once the player/non-player flag for a normalized name has been
stored in `global_role_flags`, processing any further events — whatever role
information their payloads or exports carry for that name — leaves the stored
flag unchanged: the flag set by the first recording fact is sticky for the
rest of the run. -/
theorem C9_theorem (evs : List EventInput) (st : CollectState) (k : String) (b : Bool)
    (hk : lookupA st.flags k = Option.some b) :
    lookupA (evs.foldl processEvent st).flags k = Option.some b := by
  induction evs generalizing st with
  | nil => exact hk
  | cons e evs ih =>
    apply ih
    unfold processEvent
    apply flags_table_fold
    apply flags_json_fold
    exact hk

/-- Claim C9, witness: Bob's flag is `true`; a later event records the coach
role `"trener"` for him (which would yield `false` if it were first), yet the
stored flag stays `true`. -/
theorem C9_witness :
    is_player_role "trener" = false ∧
    lookupA ([evBobCoach].foldl processEvent ⟨[], [("bob", true)]⟩).flags "bob" =
      Option.some true := by
  exact ⟨by decide, C9_theorem [evBobCoach] ⟨[], [("bob", true)]⟩ "bob" true (by decide)⟩

/-! ## Claim C1: override stability of the write path -/

/-- Claim C1, counterexample: the previously persisted table holds the
non-empty human override `"Absent — injured"` at key (E1, Bob), the fresh
computation yields Present for that key, and the table written at the end of
the run holds `"Present"` — the pre-run override is erased, because
`write_wide_sheet` clears the worksheet and rewrites it from the computed
rows alone. -/
theorem C1_counterexample :
    sheetCell prevSheet "E1" "Bob" = Option.some "Absent — injured" ∧
    ("Absent — injured" : String) ≠ "" ∧
    sheetCell (mainModel prevSheet inputBob) "E1" "Bob" = Option.some "Present" ∧
    sheetCell (mainModel prevSheet inputBob) "E1" "Bob" ≠
      Option.some "Absent — injured" := by
  refine ⟨rfl, by decide, rfl, by decide⟩

/-- Claim C1 as amended: the table written at the end of a run is exactly the
fixed header row followed by the freshly computed rows, and is entirely
independent of the previously persisted table — so a non-empty pre-run
override at a key survives only if the fresh computation happens to produce
the same value; nothing is preserved from the previous table. -/
theorem C1_theorem (prev prev' : Sheet) (inp : CollectInput) :
    mainModel prev inp =
      (FIXED_COLS ++ (collect_events_and_attendance inp).headers) ::
        (build_matrix (collect_events_and_attendance inp).headers
          (collect_events_and_attendance inp).per_member).1 ∧
    mainModel prev inp = mainModel prev' inp :=
  ⟨rfl, rfl⟩

/-! ## Claim C2: behavior of a run whose group is not found -/

/-- Claim C2, counterexample: with a group listing that has no
case-insensitive match for the configured name, the run still clears the
destination worksheet and writes the fixed header row, so a non-trivial
previous table is not left in its previous state. -/
theorem C2_counterexample :
    resolve_group_id groupsMiss = Option.none ∧
    mainModel prevSheet inputMiss = [FIXED_COLS] ∧
    mainModel prevSheet inputMiss ≠ prevSheet := by
  refine ⟨rfl, rfl, by decide⟩

/-- Claim C2 as amended: when group resolution produces no (truthy) group
id, the run produces no data rows — but it does not leave the table
untouched: `main` still calls the write path, which clears the worksheet and
writes the fixed header row only. -/
theorem C2_theorem (prev : Sheet) (inp : CollectInput)
    (h : truthyStr (resolve_group_id inp.groups) = false) :
    mainModel prev inp = [FIXED_COLS] := by
  unfold mainModel collect_events_and_attendance
  rw [if_pos h]
  simp [write_wide_sheet, ws_update, ws_clear, build_matrix, sortedMembers]

/-- Claim C2, witness: the mismatched group listing, against a previous
sheet holding data. -/
theorem C2_witness :
    truthyStr (resolve_group_id inputMiss.groups) = false ∧
    mainModel prevSheet inputMiss = [FIXED_COLS] :=
  ⟨by decide, C2_theorem prevSheet inputMiss (by decide)⟩

/-! ## Claim C8: role hints versus name-text exclusion -/

theorem lookupA_filter_key {β : Type} (p : String → Bool) (l : List (String × β))
    (k : String) :
    lookupA (l.filter (fun e => p e.1)) k =
      if p k then lookupA l k else Option.none := by
  induction l with
  | nil =>
    simp only [List.filter_nil, lookupA]
    split <;> rfl
  | cons e t ih =>
    obtain ⟨a, b⟩ := e
    by_cases hp : p a
    · by_cases hak : a = k
      · subst hak
        simp [List.filter_cons, hp, lookupA]
      · simp [List.filter_cons, hp, lookupA, hak, ih]
    · by_cases hak : a = k
      · subst hak
        simp [List.filter_cons, hp, lookupA, ih]
      · simp [List.filter_cons, hp, lookupA, hak, ih]

/-- Claim C8, counterexample: the export's role column says `"player"` for
Kari Leder, so her stored role flag is `true` (the role hint says include);
yet the final inclusion decision is `false` and she is pruned from the
output, because the name-text scan finds `"leder"` inside her display name
and overrides the hint. -/
theorem C8_counterexample :
    lookupA (processEvent ⟨[], []⟩ evKari).flags "kari leder" = Option.some true ∧
    lookupA (processEvent ⟨[], []⟩ evKari).per_member "Kari Leder" ≠ Option.none ∧
    relevantFor (processEvent ⟨[], []⟩ evKari).flags "Kari Leder" = false ∧
    lookupA (pruneMembers (processEvent ⟨[], []⟩ evKari).flags
      (processEvent ⟨[], []⟩ evKari).per_member) "Kari Leder" = Option.none := by
  refine ⟨rfl, by decide, rfl, rfl⟩

/-- Claim C8 as amended: the role hint only fixes the preliminary flag; the
name-text scan runs afterwards and can exclude regardless of the hint.  A
member is kept in the output exactly when the stored flag (default `true`)
holds and the lowercased display name contains no exclusion token — so an
explicit player role hint does not protect a member whose name text contains
a role token. -/
theorem C8_theorem (flags : List (String × Bool)) (disp : String) (pm : PerMember) :
    relevantFor flags disp =
      ((lookupA flags (normalize_name disp)).getD true &&
        !(matchesAny ROLE_EXCLUDE_WORDS (pyLower disp))) ∧
    lookupA (pruneMembers flags pm) disp =
      (if relevantFor flags disp then lookupA pm disp else Option.none) := by
  constructor
  · unfold relevantFor
    cases hx : matchesAny ROLE_EXCLUDE_WORDS (pyLower disp) <;> simp [hx]
  · unfold pruneMembers
    exact lookupA_filter_key (fun s => relevantFor flags s) pm disp

/-! ## Claim C3: source precedence in the per-event merge -/

theorem lookupA_append_of_none {β : Type} {l : List (String × β)} {k : String}
    (l' : List (String × β)) (h : lookupA l k = Option.none) :
    lookupA (l ++ l') k = lookupA l' k := by
  rw [lookupA_append, h]

theorem lookup2_updatePM_self (pm : PerMember) (d h : String) (c : String × String) :
    lookup2 (updatePM pm d h c) d h = Option.some c := by
  unfold updatePM lookup2
  cases hd : lookupA pm d with
  | some inner =>
    rw [lookupA_updateA_self]
    simp [lookupA_updateA_self]
  | none =>
    rw [lookupA_append_of_none _ hd]
    simp [lookupA]

theorem lookup2_updatePM_ne (pm : PerMember) {d d' : String} (h h' : String)
    (c : String × String) (hne : d' ≠ d) :
    lookup2 (updatePM pm d' h' c) d h = lookup2 pm d h := by
  unfold updatePM lookup2
  cases hd : lookupA pm d' with
  | some inner => rw [lookupA_updateA_ne _ _ _ _ hne]
  | none =>
    rw [lookupA_append]
    cases hx : lookupA pm d with
    | some inner => rfl
    | none => simp [lookupA, hne]

/-- Invariant of `statuses_by_name`: each entry's key is the normalized form
of the stored display name. -/
def entryKeyInv (l : List (String × (String × String × String))) : Prop :=
  ∀ e ∈ l, e.1 = normalize_name e.2.1

theorem mem_updateA {β : Type} {l : List (String × β)} {k : String} {v : β}
    {e : String × β} (h : e ∈ updateA l k v) : e ∈ l ∨ e = (k, v) := by
  induction l with
  | nil =>
    simp [updateA] at h
    simp [h]
  | cons a t ih =>
    obtain ⟨a1, a2⟩ := a
    by_cases hk : a1 = k
    · simp only [updateA, hk, if_pos rfl] at h
      rcases List.mem_cons.mp h with h | h
      · exact Or.inr h
      · exact Or.inl (List.mem_cons_of_mem _ h)
    · simp only [updateA, hk, if_neg, if_false] at h
      rcases List.mem_cons.mp h with h | h
      · exact Or.inl (by simp [h])
      · rcases ih h with h | h
        · exact Or.inl (List.mem_cons_of_mem _ h)
        · exact Or.inr h

theorem fst_mem_updateA {β : Type} {l : List (String × β)} {k : String} {v : β}
    {a : String} (h : a ∈ (updateA l k v).map Prod.fst) :
    a ∈ l.map Prod.fst ∨ a = k := by
  rcases List.mem_map.mp h with ⟨e, he, hfst⟩
  rcases mem_updateA he with h1 | h1
  · exact Or.inl (hfst ▸ List.mem_map_of_mem _ h1)
  · subst h1
    exact Or.inr hfst.symm

theorem nodup_updateA {β : Type} {l : List (String × β)} (k : String) (v : β)
    (h : (l.map Prod.fst).Nodup) : ((updateA l k v).map Prod.fst).Nodup := by
  induction l with
  | nil => simp [updateA]
  | cons a t ih =>
    obtain ⟨a1, a2⟩ := a
    simp only [List.map_cons, List.nodup_cons] at h
    by_cases hk : a1 = k
    · subst hk
      simpa [updateA, List.nodup_cons] using h
    · simp only [updateA, hk, if_neg, if_false, List.map_cons, List.nodup_cons]
      refine ⟨fun hmem => ?_, ih h.2⟩
      rcases fst_mem_updateA hmem with h1 | h1
      · exact h.1 h1
      · exact hk h1

theorem extract_entryKeyInv (ps : List Participant) :
    ∀ st, entryKeyInv st.1 → entryKeyInv ((ps.foldl extractStep st).1) := by
  induction ps with
  | nil => intro st h; exact h
  | cons p ps ih =>
    intro st h
    apply ih
    unfold extractStep
    by_cases hn : participantName p = ""
    · simpa [hn] using h
    · simp only [hn, if_neg, if_false]
      intro e he
      rcases mem_updateA he with h1 | h1
      · exact h e h1
      · subst h1
        rfl

theorem extract_nodupKeys (ps : List Participant) :
    ∀ st, (st.1.map Prod.fst).Nodup → (((ps.foldl extractStep st).1).map Prod.fst).Nodup := by
  induction ps with
  | nil => intro st h; exact h
  | cons p ps ih =>
    intro st h
    apply ih
    unfold extractStep
    by_cases hn : participantName p = ""
    · simpa [hn] using h
    · simp only [hn, if_neg, if_false]
      exact nodup_updateA _ _ h

theorem contains_append_left {l : List String} {k : String} (l' : List String)
    (h : l.contains k = true) : (l ++ l').contains k = true := by
  have hm : k ∈ l := by simpa using h
  simpa using Or.inl hm

theorem contains_append_singleton (l : List String) (k : String) :
    (l ++ [k]).contains k = true := by
  simp

theorem json_fold_used_mono (hd : String)
    (items : List (String × (String × String × String))) :
    ∀ (stu : CollectState × List String) (k : String),
      stu.2.contains k = true →
      ((items.foldl (processJsonItem hd) stu).2).contains k = true := by
  induction items with
  | nil => intro stu k h; exact h
  | cons it items ih =>
    intro stu k h
    exact ih _ k (contains_append_left _ h)

theorem json_fold_pm_preserved (hd : String)
    (items : List (String × (String × String × String))) (disp hh : String) :
    ∀ (stu : CollectState × List String),
      (∀ it ∈ items, it.2.1 ≠ disp) →
      lookup2 ((items.foldl (processJsonItem hd) stu).1).per_member disp hh =
        lookup2 stu.1.per_member disp hh := by
  induction items with
  | nil => intro stu _; rfl
  | cons it items ih =>
    intro stu hne
    rw [List.foldl_cons, ih _ (fun x hx => hne x (List.mem_cons_of_mem _ hx))]
    exact lookup2_updatePM_ne _ _ _ _ (hne it (List.mem_cons_self _ _))

theorem json_fold_sets (hd : String) :
    ∀ (items : List (String × (String × String × String)))
      (nkey disp stt role : String) (stu : CollectState × List String),
      (nkey, (disp, stt, role)) ∈ items →
      entryKeyInv items →
      (items.map Prod.fst).Nodup →
      lookup2 ((items.foldl (processJsonItem hd) stu).1).per_member disp hd =
          Option.some (status_to_cell stt "") ∧
        ((items.foldl (processJsonItem hd) stu).2).contains nkey = true := by
  intro items
  induction items with
  | nil => intro nkey disp stt role stu hmem; cases hmem
  | cons it items ih =>
    intro nkey disp stt role stu hmem hinv hnd
    rcases List.mem_cons.mp hmem with heq | htail
    · subst heq
      have hkey : nkey = normalize_name disp :=
        hinv (nkey, (disp, stt, role)) (List.mem_cons_self _ _)
      have hnd' : (nkey :: items.map Prod.fst).Nodup := by simpa using hnd
      have hne : ∀ it' ∈ items, it'.2.1 ≠ disp := by
        intro it' hit' hdisp
        have hinv' : it'.1 = normalize_name it'.2.1 :=
          hinv it' (List.mem_cons_of_mem _ hit')
        have : it'.1 = nkey := by rw [hinv', hdisp, ← hkey]
        have hnot : nkey ∉ items.map Prod.fst := (List.nodup_cons.mp hnd').1
        exact hnot (this ▸ List.mem_map_of_mem Prod.fst hit')
      constructor
      · rw [List.foldl_cons, json_fold_pm_preserved _ _ _ _ _ hne]
        exact lookup2_updatePM_self _ _ _ _
      · rw [List.foldl_cons]
        apply json_fold_used_mono
        show ((stu.2 ++ [normalize_name disp]).contains nkey) = true
        rw [hkey]
        exact contains_append_singleton _ _
    · rw [List.foldl_cons]
      refine ih nkey disp stt role _ htail
        (fun e he => hinv e (List.mem_cons_of_mem _ he)) ?_
      have hnd' : (it.1 :: items.map Prod.fst).Nodup := by simpa using hnd
      exact (List.nodup_cons.mp hnd').2

theorem processTableRow_used (hd : String) (xr : List (String × String))
    (stu : CollectState × List String) (row : TableRow) :
    (processTableRow hd xr stu row).2 = stu.2 := by
  unfold processTableRow
  by_cases hn : pyStrip row.member = ""
  · simp [hn]
  · simp only [hn, if_neg, if_false]
    split <;> rfl

theorem table_fold_pm_preserved (hd : String) (xr : List (String × String))
    (rows : List TableRow) (disp hh : String) :
    ∀ (stu : CollectState × List String),
      stu.2.contains (normalize_name disp) = true →
      lookup2 ((rows.foldl (processTableRow hd xr) stu).1).per_member disp hh =
        lookup2 stu.1.per_member disp hh := by
  induction rows with
  | nil => intro stu _; rfl
  | cons row rows ih =>
    intro stu hc
    rw [List.foldl_cons, ih _ (by rw [processTableRow_used]; exact hc)]
    unfold processTableRow
    by_cases hn : pyStrip row.member = ""
    · simp [hn]
    · simp only [hn, if_neg, if_false]
      by_cases hu : stu.2.contains (normalize_name (pyStrip row.member)) = true
      · rw [if_pos (by simpa using hu)]
      · have hname : pyStrip row.member ≠ disp := by
          intro hdisp
          exact hu (hdisp ▸ hc)
        rw [if_neg (by simpa using hu)]
        exact lookup2_updatePM_ne _ _ _ _ hname

/-- Claim C3, counterexample: for (E1, Bob) the structured payload carries
the status `"pending"`, which normalizes to No response, while the tabular
export carries `"Present"`, which normalizes to Present; yet the merged cell
is not Present — the export fact is discarded because the payload already
provided a status for Bob (and the payload's No response is re-normalized by
`status_to_cell` into an Absent cell, since `"no "` is a substring of
`"no response"`). -/
theorem C3_counterexample :
    normalize_status (RawVal.strV "pending") = "No response" ∧
    normalize_status (RawVal.strV "Present") = "Present" ∧
    cellFor (processEvent ⟨[], []⟩ evJsonVsXlsx).per_member "Bob" "E1" =
      ("Absent", "absent") ∧
    cellFor (processEvent ⟨[], []⟩ evJsonVsXlsx).per_member "Bob" "E1" ≠
      ("Present", "present") := by
  refine ⟨rfl, rfl, rfl, by decide⟩

/-- Claim C3 as amended: the per-event merge is not rank-based but
tier-based with absolute precedence for the structured payload: whenever the
payload yields a status entry for a member, the cell for that (event,
member) pair is `status_to_cell` of the payload's status with empty reason,
whatever the export rows say for the same member — an export fact (even a
Present) never overrides a payload fact (even a No response). -/
theorem C3_theorem (st : CollectState) (e : EventInput) (d : JsonEvent)
    (nkey disp stt role : String)
    (he : e.json = Option.some d)
    (hk : lookupA (extract_from_json d).1 nkey = Option.some (disp, stt, role)) :
    cellFor (processEvent st e).per_member disp e.header = status_to_cell stt "" := by
  have hinv : entryKeyInv (extract_from_json d).1 :=
    extract_entryKeyInv _ _ (by intro e he; cases he)
  have hnd : (((extract_from_json d).1).map Prod.fst).Nodup :=
    extract_nodupKeys _ _ (by simp)
  have hmem := lookupA_mem hk
  have hkey : nkey = normalize_name disp := hinv _ hmem
  unfold processEvent
  rw [he]
  have hsets := json_fold_sets e.header (extract_from_json d).1 nkey disp stt role
    (st, ([] : List String)) hmem hinv hnd
  unfold cellFor
  rw [table_fold_pm_preserved _ _ _ _ _ _ (hkey ▸ hsets.2), hsets.1]
  rfl

/-- Claim C3, witness: the payload says Bob accepted while the export says
he declined with a reason; the merged cell is the payload's Present. -/
theorem C3_witness :
    cellFor (processEvent ⟨[], []⟩ evJsonYesXlsxNo).per_member "Bob" "E1" =
      status_to_cell "Present" "" :=
  C3_theorem ⟨[], []⟩ evJsonYesXlsxNo { participants := Option.some [bobPresent] }
    "bob" "Bob" "Present" "" rfl (by decide)

/-! ## Claim C6: default safety and cell uniqueness of `build_matrix` -/

/-- Claim C6: every member of the output matrix gets exactly one cell per
event column — the row built for a member has exactly `4 + |events|` value
entries and `|events|` color entries, one per event header, never zero and
never more than one — and for every event with no extracted fact for that
member the cell is the default `("No response", "noresp")`, never Present or
Absent. -/
theorem C6_theorem (ehs : List String) (pm : PerMember) (m : String) (i : Nat)
    (hm : m ∈ sortedMembers pm) (hi : i < ehs.length)
    (hnone : lookup2 pm m (ehs.get ⟨i, hi⟩) = Option.none) :
    (buildRow ehs pm m).1 ∈ (build_matrix ehs pm).1 ∧
    (buildRow ehs pm m).1.length = 4 + ehs.length ∧
    (buildRow ehs pm m).2.length = ehs.length ∧
    (buildRow ehs pm m).1.get? (4 + i) = Option.some "No response" ∧
    (buildRow ehs pm m).2.get? i = Option.some "noresp" := by
  have hcell : cellFor pm m (ehs.get ⟨i, hi⟩) = ("No response", "noresp") := by
    unfold cellFor
    rw [hnone]
    rfl
  refine ⟨List.mem_map_of_mem _ hm, ?_, ?_, ?_, ?_⟩
  · simp [buildRow]
    omega
  · simp [buildRow]
  · simp only [buildRow]
    rw [List.get?_append_right (by simp)]
    simp [List.get?_map]
    exact ⟨ehs.get ⟨i, hi⟩, by simp [List.getElem?_eq_getElem hi], by rw [hcell]⟩
  · simp only [buildRow]
    simp [List.get?_map]
    exact ⟨ehs.get ⟨i, hi⟩, by simp [List.getElem?_eq_getElem hi], by rw [hcell]⟩

/-- Claim C6, witness: member Ann with no fact for the single event E1 gets
the default cell. -/
theorem C6_witness :
    (buildRow ["E1"] [("Ann", [])] "Ann").1.get? (4 + 0) = Option.some "No response" ∧
    (buildRow ["E1"] [("Ann", [])] "Ann").2.get? 0 = Option.some "noresp" := by
  have h := C6_theorem ["E1"] [("Ann", [])] "Ann" 0 (by decide) (by decide) (by decide)
  exact ⟨h.2.2.2.1, h.2.2.2.2⟩

/-! ## Claim C7: behavior of `normalize_name` -/

theorem toNat_ofNat_lt (n : Nat) (h : n < 55296) : (Char.ofNat n).toNat = n := by
  unfold Char.ofNat
  split
  · rfl
  · rename_i hn
    exact absurd (Or.inl h) hn

theorem isWhitespace_false_of_toNat {c : Char}
    (h : 65 ≤ c.toNat ∧ c.toNat ≤ 90 ∨ 97 ≤ c.toNat ∧ c.toNat ≤ 122) :
    c.isWhitespace = false := by
  simp only [Char.isWhitespace, Bool.or_eq_false_iff, decide_eq_false_iff_not]
  refine ⟨⟨⟨?_, ?_⟩, ?_⟩, ?_⟩ <;> intro he <;> subst he <;> revert h <;> decide

theorem pyLowerChar_isWhitespace (c : Char) :
    (pyLowerChar c).isWhitespace = c.isWhitespace := by
  by_cases h1 : c = 'Å'
  · subst h1; decide
  by_cases h2 : c = 'Æ'
  · subst h2; decide
  by_cases h3 : c = 'Ø'
  · subst h3; decide
  have hc : pyLowerChar c = Char.toLower c := by
    unfold pyLowerChar
    rw [if_neg h1, if_neg h2, if_neg h3]
  rw [hc]
  simp only [Char.toLower]
  split
  · rename_i hr
    have h32 : (Char.ofNat (c.toNat + 32)).toNat = c.toNat + 32 :=
      toNat_ofNat_lt _ (by omega)
    rw [isWhitespace_false_of_toNat (Or.inr (by rw [h32]; omega)),
      isWhitespace_false_of_toNat (Or.inl hr)]
  · rfl

theorem pyLowerChar_idem (c : Char) : pyLowerChar (pyLowerChar c) = pyLowerChar c := by
  by_cases h1 : c = 'Å'
  · subst h1; decide
  by_cases h2 : c = 'Æ'
  · subst h2; decide
  by_cases h3 : c = 'Ø'
  · subst h3; decide
  have hc : pyLowerChar c = Char.toLower c := by
    unfold pyLowerChar
    rw [if_neg h1, if_neg h2, if_neg h3]
  rw [hc]
  simp only [Char.toLower]
  split
  · rename_i hr
    have h32 : (Char.ofNat (c.toNat + 32)).toNat = c.toNat + 32 :=
      toNat_ofNat_lt _ (by omega)
    unfold pyLowerChar
    rw [if_neg (show ¬ Char.ofNat (c.toNat + 32) = 'Å' by
        intro he
        have hn := congrArg Char.toNat he
        rw [h32, show ('Å').toNat = 197 from rfl] at hn
        omega),
      if_neg (show ¬ Char.ofNat (c.toNat + 32) = 'Æ' by
        intro he
        have hn := congrArg Char.toNat he
        rw [h32, show ('Æ').toNat = 198 from rfl] at hn
        omega),
      if_neg (show ¬ Char.ofNat (c.toNat + 32) = 'Ø' by
        intro he
        have hn := congrArg Char.toNat he
        rw [h32, show ('Ø').toNat = 216 from rfl] at hn
        omega)]
    simp only [Char.toLower]
    rw [if_neg (show ¬((Char.ofNat (c.toNat + 32)).toNat ≥ 65 ∧
        (Char.ofNat (c.toNat + 32)).toNat ≤ 90) by rw [h32]; omega)]
  · rename_i hr
    rw [hc]
    simp only [Char.toLower]
    rw [if_neg hr]

theorem collapseWs_ne_nil : ∀ (l : List Char), l ≠ [] → collapseWs l ≠ [] := by
  intro l
  induction l with
  | nil => intro h; exact absurd rfl h
  | cons a t ih =>
    intro _
    cases t with
    | nil => simp [collapseWs]
    | cons b r =>
      show collapseWs (a :: b :: r) ≠ []
      unfold collapseWs
      split
      · exact ih (by simp)
      · simp

theorem collapseWs_head (b : Char) (r : List Char) (hb : b.isWhitespace = false) :
    ∃ t, collapseWs (b :: r) = b :: t := by
  cases r with
  | nil => exact ⟨[], by simp [collapseWs, hb]⟩
  | cons c r' =>
    refine ⟨collapseWs (c :: r'), ?_⟩
    simp [collapseWs, hb]

theorem wsCanon_collapseWs : ∀ (l : List Char), wsCanon (collapseWs l) = true := by
  intro l
  induction l with
  | nil => rfl
  | cons a t ih =>
    cases t with
    | nil =>
      show wsCanon (collapseWs [a]) = true
      unfold collapseWs
      by_cases ha : a.isWhitespace
      · rw [if_pos ha]
        decide
      · rw [if_neg ha]
        simp [wsCanon, ha]
    | cons b r =>
      show wsCanon (collapseWs (a :: b :: r)) = true
      unfold collapseWs
      split
      · exact ih
      · rename_i hcond
        obtain ⟨y, ys, hy⟩ : ∃ y ys, collapseWs (b :: r) = y :: ys := by
          rcases hx : collapseWs (b :: r) with _ | ⟨y, ys⟩
          · exact absurd hx (collapseWs_ne_nil _ (by simp))
          · exact ⟨y, ys, rfl⟩
        rw [hy]
        have ih' : wsCanon (y :: ys) = true := hy ▸ ih
        simp only [wsCanon, Bool.and_eq_true]
        refine ⟨?_, ih'⟩
        by_cases ha : a.isWhitespace
        · have hb : b.isWhitespace = false := by
            by_cases hbt : b.isWhitespace = true
            · exact absurd (by simp [ha, hbt]) hcond
            · simpa using hbt
          obtain ⟨t', ht'⟩ := collapseWs_head b r hb
          rw [ht'] at hy
          obtain ⟨rfl, -⟩ : b = y ∧ t' = ys := by
            constructor <;> [exact (List.cons.injEq _ _ _ _ ▸ hy).1; exact (List.cons.injEq _ _ _ _ ▸ hy).2]
          rw [if_pos ha]
          simp [hb]
        · rw [if_neg ha]
          simp [ha]

theorem collapseWs_of_wsCanon : ∀ (l : List Char), wsCanon l = true → collapseWs l = l := by
  intro l
  induction l with
  | nil => intro _; rfl
  | cons a t ih =>
    cases t with
    | nil =>
      intro h
      show collapseWs [a] = [a]
      unfold collapseWs
      by_cases ha : a.isWhitespace
      · have : a = ' ' := by
          simp [wsCanon, ha] at h
          exact h
        rw [if_pos ha, this]
      · rw [if_neg ha]
    | cons b r =>
      intro h
      simp only [wsCanon, Bool.and_eq_true] at h
      obtain ⟨h1, h2⟩ := h
      show collapseWs (a :: b :: r) = a :: b :: r
      unfold collapseWs
      have hcond : ¬((a.isWhitespace && b.isWhitespace) = true) := by
        intro hab
        rw [Bool.and_eq_true] at hab
        simp [hab.1, hab.2] at h1
      rw [if_neg hcond, ih h2]
      by_cases ha : a.isWhitespace
      · simp [ha] at h1
        rw [if_pos ha, h1.1]
      · rw [if_neg ha]

theorem lastNonWs_collapseWs : ∀ (l : List Char), lastNonWs l → lastNonWs (collapseWs l) := by
  intro l
  induction l with
  | nil => intro h; exact h
  | cons a t ih =>
    cases t with
    | nil =>
      intro h c hc
      have ha : a.isWhitespace = false := h a (by simp)
      unfold collapseWs at hc
      rw [if_neg (by simp [ha])] at hc
      simp at hc
      rw [← hc]
      exact ha
    | cons b r =>
      intro h
      have h' : lastNonWs (b :: r) := by
        intro c' hc'
        exact h c' (by rw [List.getLast?_cons_cons]; exact hc')
      intro c
      show (collapseWs (a :: b :: r)).getLast? = Option.some c → _
      unfold collapseWs
      split
      · intro hc
        exact ih h' c hc
      · intro hc
        obtain ⟨y, ys, hy⟩ : ∃ y ys, collapseWs (b :: r) = y :: ys := by
          rcases hx : collapseWs (b :: r) with _ | ⟨y, ys⟩
          · exact absurd hx (collapseWs_ne_nil _ (by simp))
          · exact ⟨y, ys, rfl⟩
        rw [hy, List.getLast?_cons_cons] at hc
        exact ih h' c (by rw [hy]; exact hc)

theorem mem_collapseWs : ∀ (l : List Char) (c : Char), c ∈ collapseWs l → c = ' ' ∨ c ∈ l := by
  intro l
  induction l with
  | nil => intro c hc; cases hc
  | cons a t ih =>
    cases t with
    | nil =>
      intro c hc
      unfold collapseWs at hc
      by_cases ha : a.isWhitespace
      · rw [if_pos ha] at hc
        simp at hc
        exact Or.inl hc
      · rw [if_neg ha] at hc
        simp at hc
        exact Or.inr (by simp [hc])
    | cons b r =>
      intro c
      show c ∈ collapseWs (a :: b :: r) → _
      unfold collapseWs
      split
      · intro hc
        rcases ih c hc with h | h
        · exact Or.inl h
        · exact Or.inr (List.mem_cons_of_mem _ h)
      · intro hc
        rcases List.mem_cons.mp hc with h | h
        · by_cases ha : a.isWhitespace
          · rw [if_pos ha] at h
            exact Or.inl h
          · rw [if_neg ha] at h
            exact Or.inr (by simp [h])
        · rcases ih c h with h' | h'
          · exact Or.inl h'
          · exact Or.inr (List.mem_cons_of_mem _ h')

theorem headNonWs_dropWhile (l : List Char) :
    headNonWs (l.dropWhile Char.isWhitespace) := by
  induction l with
  | nil => intro c hc; cases hc
  | cons a t ih =>
    by_cases ha : a.isWhitespace = true
    · rw [List.dropWhile_cons, if_pos ha]
      exact ih
    · rw [List.dropWhile_cons, if_neg ha]
      intro c hc
      simp at hc
      rw [← hc]
      simpa using ha

theorem dropWhile_getLast? (p : Char → Bool) :
    ∀ (l : List Char), l.dropWhile p = [] ∨ (l.dropWhile p).getLast? = l.getLast? := by
  intro l
  induction l with
  | nil => exact Or.inl rfl
  | cons a t ih =>
    by_cases ha : p a = true
    · rw [List.dropWhile_cons, if_pos ha]
      cases t with
      | nil => exact Or.inl rfl
      | cons b r =>
        rcases ih with h | h
        · exact Or.inl h
        · exact Or.inr (by rw [h, List.getLast?_cons_cons])
    · rw [List.dropWhile_cons, if_neg ha]
      exact Or.inr rfl

theorem pyStripL_headNonWs (l : List Char) : headNonWs (pyStripL l) := by
  intro c hc
  unfold pyStripL at hc
  rw [List.head?_reverse] at hc
  rcases dropWhile_getLast? Char.isWhitespace ((l.dropWhile Char.isWhitespace).reverse) with h | h
  · rw [h] at hc
    cases hc
  · rw [h, List.getLast?_reverse] at hc
    exact headNonWs_dropWhile l c hc

theorem pyStripL_lastNonWs (l : List Char) : lastNonWs (pyStripL l) := by
  intro c hc
  unfold pyStripL at hc
  rw [List.getLast?_reverse] at hc
  exact headNonWs_dropWhile _ c hc

theorem dropWhile_of_headNonWs {l : List Char} (h : headNonWs l) :
    l.dropWhile Char.isWhitespace = l := by
  cases l with
  | nil => rfl
  | cons a t =>
    rw [List.dropWhile_cons, if_neg (by simp [h a rfl])]

theorem pyStripL_of_nonWs {l : List Char} (h1 : headNonWs l) (h2 : lastNonWs l) :
    pyStripL l = l := by
  have hr : headNonWs l.reverse := by
    intro c hc
    rw [List.head?_reverse] at hc
    exact h2 c hc
  unfold pyStripL
  rw [dropWhile_of_headNonWs h1, dropWhile_of_headNonWs hr, List.reverse_reverse]

theorem headNonWs_map {l : List Char} (h : headNonWs l) :
    headNonWs (l.map pyLowerChar) := by
  intro c hc
  rw [List.head?_map] at hc
  cases hl : l.head? with
  | none => rw [hl] at hc; cases hc
  | some d =>
    rw [hl] at hc
    simp at hc
    rw [← hc, pyLowerChar_isWhitespace]
    exact h d hl

theorem lastNonWs_map {l : List Char} (h : lastNonWs l) :
    lastNonWs (l.map pyLowerChar) := by
  intro c hc
  rw [List.getLast?_map] at hc
  have hc' := hc
  cases hl : l.getLast? with
  | none => rw [hl] at hc'; cases hc'
  | some d =>
    rw [hl] at hc'
    simp at hc'
    rw [← hc', pyLowerChar_isWhitespace]
    exact h d hl

theorem map_pyLowerChar_self {l : List Char} (h : ∀ c ∈ l, pyLowerChar c = c) :
    l.map pyLowerChar = l := by
  induction l with
  | nil => rfl
  | cons a t ih =>
    rw [List.map_cons, h a (List.mem_cons_self _ _),
      ih (fun c hc => h c (List.mem_cons_of_mem _ hc))]

theorem headNonWs_collapseWs {l : List Char} (h : headNonWs l) :
    headNonWs (collapseWs l) := by
  cases l with
  | nil => exact h
  | cons b r =>
    have hb : b.isWhitespace = false := h b rfl
    obtain ⟨t, ht⟩ := collapseWs_head b r hb
    rw [ht]
    intro c hc
    simp at hc
    rw [← hc]
    exact hb

theorem normalize_name_idem (s : String) :
    normalize_name (normalize_name s) = normalize_name s := by
  show String.mk (collapseWs ((pyStripL
      (collapseWs ((pyStripL s.data).map pyLowerChar))).map pyLowerChar))
    = String.mk (collapseWs ((pyStripL s.data).map pyLowerChar))
  have h1 : headNonWs ((pyStripL s.data).map pyLowerChar) :=
    headNonWs_map (pyStripL_headNonWs s.data)
  have h2 : lastNonWs ((pyStripL s.data).map pyLowerChar) :=
    lastNonWs_map (pyStripL_lastNonWs s.data)
  have h3 : headNonWs (collapseWs ((pyStripL s.data).map pyLowerChar)) :=
    headNonWs_collapseWs h1
  have h4 : lastNonWs (collapseWs ((pyStripL s.data).map pyLowerChar)) :=
    lastNonWs_collapseWs _ h2
  rw [pyStripL_of_nonWs h3 h4]
  rw [map_pyLowerChar_self (fun c hc => ?_), collapseWs_of_wsCanon _ (wsCanon_collapseWs _)]
  rcases mem_collapseWs _ c hc with h | h
  · rw [h]
    rfl
  · rcases List.mem_map.mp h with ⟨c', -, rfl⟩
    exact pyLowerChar_idem c'

/-- Claim C7, counterexample: `normalize_name` does not strip parenthetical
content or separator suffixes, so `"Alice Smith (Coach)"` and
`"alice  smith"` do not normalize to the same key as the claim's example
asserts. -/
theorem C7_counterexample :
    normalize_name "Alice Smith (Coach)" ≠ normalize_name "alice  smith" := by
  decide

/-- Claim C7 as amended: the member-identity normalization only trims
leading/trailing whitespace, case-folds, and collapses internal whitespace
runs; parenthetical annotations and separator suffixes are retained.  Two
raw names resolve to the same member exactly when these normalized forms are
equal — normalization is idempotent, so normalized keys compare stably —
and in particular `"Alice Smith (Coach)"` keeps its parenthesis and differs
from the key of `"alice  smith"`. -/
theorem C7_theorem :
    (∀ s : String, normalize_name (normalize_name s) = normalize_name s) ∧
    normalize_name "Alice Smith (Coach)" = "alice smith (coach)" ∧
    normalize_name "alice  smith" = "alice smith" :=
  ⟨fun s => normalize_name_idem s, by decide, by decide⟩

end SpondSync
